import Mathlib

/-!
Verification of the gh-pr-viewer core: a shallow embedding of the cache
service, validator, fetch-paginate-cache pipeline, query stage and
presenter, together with theorems about their behaviour.

Conventions of the embedding:
* JavaScript wall-clock instants (Date.now(), entry timestamps) are Int
  milliseconds passed explicitly.
* The JS Map backing the cache is an insertion-ordered association list.
* Methods that mutate state (CacheService.get evicting expired entries,
  fetchPullRequests writing to the cache) return the new state explicitly.
* Fallible upstream calls return Except values.
-/

/-! ## Cache service (src/services/cache.service.ts) -/

/-- One cache entry: payload, creation timestamp (ms), time-to-live (ms).
Mirrors the CacheEntry interface of src/types/github.types.ts. -/
structure CacheEntry (α : Type) where
  data : α
  timestamp : Int
  ttl : Int
deriving DecidableEq

/-- The private Map of CacheService, modelled as an insertion-ordered
association list of key/entry pairs. -/
abbrev CacheMap (α : Type) : Type := List (String × CacheEntry α)

/-- Map.get: the entry stored under a key, if any. -/
def mapFind (m : CacheMap α) (k : String) : Option (CacheEntry α) :=
  (m.find? (fun p => p.1 == k)).map (fun p => p.2)

/-- Map.set: overwrite in place when the key exists, append otherwise
(JS Maps keep the original insertion position on overwrite). -/
def mapSet (m : CacheMap α) (k : String) (e : CacheEntry α) : CacheMap α :=
  if m.any (fun p => p.1 == k) then
    m.map (fun p => if p.1 == k then (k, e) else p)
  else m ++ [(k, e)]

/-- Map.delete: remove the entry for a key. -/
def mapDelete (m : CacheMap α) (k : String) : CacheMap α :=
  m.filter (fun p => !(p.1 == k))

/-- private readonly defaultTTL = 5 * 60 * 1000. -/
def CacheService.defaultTTL : Int := 5 * 60 * 1000

/-- CacheService.set: store data with the given TTL (the nullish-coalescing
default is defaultTTL) and the current timestamp. -/
def CacheService.set (c : CacheMap α) (key : String) (data : α)
    (ttl : Option Int) (now : Int) : CacheMap α :=
  mapSet c key { data := data, timestamp := now, ttl := ttl.getD CacheService.defaultTTL }

/-- CacheService.get: return the stored data unless missing or expired;
an expired entry is deleted as a side effect (the updated map is the
second component). -/
def CacheService.get (c : CacheMap α) (key : String) (now : Int) :
    Option α × CacheMap α :=
  match mapFind c key with
  | none => (none, c)
  | some entry =>
    if now - entry.timestamp > entry.ttl then (none, mapDelete c key)
    else (some entry.data, c)

/-- CacheService.generateKey: owner/repo, with a colon-separated suffix
appended only when the suffix is present and truthy (the empty string is
falsy in JS, so it is treated like an absent suffix). -/
def CacheService.generateKey (owner repo : String) (suffix : Option String) : String :=
  let base := owner ++ "/" ++ repo
  match suffix with
  | some s => if s = "" then base else base ++ ":" ++ s
  | none => base

/-! ## Validator (src/utils/validator.ts) -/

/-- Character class of the regex /^[a-f0-9]+$/i. -/
def isHexChar (c : Char) : Bool :=
  (('0' ≤ c) && (c ≤ '9')) || (('a' ≤ c) && (c ≤ 'f')) || (('A' ≤ c) && (c ≤ 'F'))

/-- The test /^[a-f0-9]+$/i.test(s): nonempty and purely hexadecimal. -/
def isHexString (s : String) : Bool :=
  (s != "") && s.toList.all isHexChar

/-- JS String.prototype.trim whitespace (the characters relevant here). -/
def isJsWhitespace (c : Char) : Bool :=
  (c == ' ') || (c == '\t') || (c == '\n') || (c == '\x0d') || (c == '\x0b') || (c == '\x0c')

/-- Model of JS String.prototype.trim: strip whitespace from both ends. -/
def jsTrim (s : String) : String :=
  String.mk (((s.toList.dropWhile isJsWhitespace).reverse.dropWhile isJsWhitespace).reverse)

/-- Model of JS String.prototype.startsWith, over the character list. -/
def jsStartsWith (s pre : String) : Bool :=
  s.toList.take pre.length == pre.toList

/-- Validator.isValidTokenFormat: reject the empty (falsy) string, then
trim and require length at least 40 together with one of the leading
markers ghp_ / github_pat_ or a purely hexadecimal body. -/
def Validator.isValidTokenFormat (token : String) : Bool :=
  if token = "" then false
  else
    let trimmed := jsTrim token
    decide (40 ≤ trimmed.length) &&
      (jsStartsWith trimmed "ghp_" || jsStartsWith trimmed "github_pat_" || isHexString trimmed)

/-! ## Basic map lemmas shared by the cache theorems -/

theorem mapFind_mapSet_self (c : CacheMap α) (k : String) (e : CacheEntry α) :
    mapFind (mapSet c k e) k = some e := by
  unfold mapSet
  split
  · rename_i hany
    induction c with
    | nil => simp at hany
    | cons p c ih =>
      by_cases hp : p.1 == k
      · simp [mapFind, List.find?, hp]
      · simp only [List.any_cons, hp, Bool.false_or] at hany
        simpa [mapFind, List.find?, hp] using ih hany
  · induction c with
    | nil => simp [mapFind, List.find?]
    | cons p c ih =>
      rename_i hany
      simp only [List.any_cons, Bool.or_eq_true, not_or] at hany
      have hp : (p.1 == k) = false := by
        cases h : p.1 == k
        · rfl
        · exact absurd h hany.1
      have := ih (by simpa using hany.2)
      simpa [mapFind, List.find?, hp] using this

theorem mapFind_mapDelete_self (c : CacheMap α) (k : String) :
    mapFind (mapDelete c k) k = none := by
  induction c with
  | nil => rfl
  | cons p c ih =>
    by_cases hp : p.1 == k
    · simpa [mapDelete, List.filter, hp] using ih
    · have hp' : (p.1 == k) = false := by
        cases h : p.1 == k
        · rfl
        · exact absurd h hp
      simp [mapDelete, List.filter, hp', mapFind, List.find?, ih]

theorem get_none_find_none (c : CacheMap α) (k : String) (now : Int)
    (h : (CacheService.get c k now).1 = none) :
    mapFind (CacheService.get c k now).2 k = none := by
  unfold CacheService.get at *
  cases hf : mapFind c k with
  | none => simp [hf]
  | some entry =>
    simp only [hf] at h ⊢
    split at h
    · simpa [*] using mapFind_mapDelete_self c k
    · simp at h

/-! ## Claim C4: cache get/set TTL semantics -/

/-- C4: for every key and value, get after set returns the value while
now minus the stored timestamp is at most the TTL; once that difference
exceeds the TTL, get returns none and evicts the entry (the returned map
has no entry for the key); get on a never-set key returns none and leaves
the map untouched.  get is a total function, so it has no failure mode. -/
theorem cache_get_set_ttl_semantics (α : Type) (c : CacheMap α) (k : String)
    (v : α) (ttl now1 now2 : Int) :
    (now2 - now1 ≤ ttl →
      (CacheService.get (CacheService.set c k v (some ttl) now1) k now2).1 = some v) ∧
    (now2 - now1 > ttl →
      CacheService.get (CacheService.set c k v (some ttl) now1) k now2 =
        (none, mapDelete (CacheService.set c k v (some ttl) now1) k) ∧
      mapFind (CacheService.get (CacheService.set c k v (some ttl) now1) k now2).2 k = none) ∧
    (mapFind c k = none → CacheService.get c k now2 = (none, c)) := by
  have hfind : mapFind (CacheService.set c k v (some ttl) now1) k =
      some { data := v, timestamp := now1, ttl := ttl } := by
    unfold CacheService.set
    exact mapFind_mapSet_self c k _
  refine ⟨?_, ?_, ?_⟩
  · intro hle
    unfold CacheService.get
    rw [hfind]
    simp only [Option.getD]
    have : ¬ (now2 - now1 > ttl) := by omega
    simp [this]
  · intro hgt
    constructor
    · unfold CacheService.get
      rw [hfind]
      simp [hgt]
    · unfold CacheService.get
      rw [hfind]
      simp only [hgt, if_pos]
      exact mapFind_mapDelete_self _ k
  · intro hnone
    unfold CacheService.get
    rw [hnone]

/-- Witness for C4 at concrete inputs: a fresh read within the TTL returns
the value, and a read past the TTL leaves no entry behind. -/
theorem cache_get_set_ttl_semantics_witness :
    (CacheService.get (CacheService.set ([] : CacheMap Nat) "k" 7 (some 100) 0) "k" 50).1 = some 7 ∧
    mapFind (CacheService.get (CacheService.set ([] : CacheMap Nat) "k" 7 (some 100) 0) "k" 201).2 "k" = none :=
  ⟨(cache_get_set_ttl_semantics Nat [] "k" 7 100 0 50).1 (by decide),
   ((cache_get_set_ttl_semantics Nat [] "k" 7 100 0 201).2.1 (by decide)).2⟩

/-! ## Claim C10: the empty suffix behaves like an absent suffix -/

/-- C10: generateKey with an empty-string suffix returns the same key as
generateKey with no suffix, namely owner/repo with no trailing colon. -/
theorem generateKey_empty_suffix_eq_absent (owner repo : String) :
    CacheService.generateKey owner repo (some "") = CacheService.generateKey owner repo none ∧
    CacheService.generateKey owner repo none = owner ++ "/" ++ repo := by
  constructor
  · simp [CacheService.generateKey]
  · rfl

/-! ## Data model (src/types/github.types.ts) -/

/-- GitHubUser: author or reviewer shape. -/
structure GitHubUser where
  login : String
  id : Nat
  avatar_url : String
  html_url : String
deriving DecidableEq

/-- GitHubLabel; description is optional. -/
structure GitHubLabel where
  id : Nat
  name : String
  color : String
  description : Option String
deriving DecidableEq

/-- PullRequest: immutable snapshot of one remote PR at fetch time. -/
structure PullRequest where
  id : Nat
  number : Nat
  title : String
  state : String
  user : GitHubUser
  body : Option String
  created_at : String
  updated_at : String
  closed_at : Option String
  merged_at : Option String
  html_url : String
  draft : Bool
  labels : List GitHubLabel
  requested_reviewers : List GitHubUser
  comments : Nat
  review_comments : Nat
  commits : Nat
  additions : Nat
  deletions : Nat
  changed_files : Nat
deriving DecidableEq

/-- PaginationInfo as returned by fetchPullRequests. -/
structure PaginationInfo where
  page : Nat
  perPage : Nat
  hasNextPage : Bool
  totalFetched : Nat
deriving DecidableEq

/-- FetchPRsOptions; the optional fields carry their defaults only inside
fetchPullRequests (destructuring defaults in the source). -/
structure FetchPRsOptions where
  owner : String
  repo : String
  state : Option String
  sort : Option String
  direction : Option String
  perPage : Option Nat
  maxPages : Option Nat

/-- The pair returned (and cached) by fetchPullRequests. -/
structure FetchResult where
  prs : List PullRequest
  pagination : PaginationInfo
deriving DecidableEq

/-! ## Fetcher (src/services/github.service.ts) -/

/-- One upstream page response: the items of the page (already mapped by
mapToPullRequest, a field-for-field copy) and whether the Link header is
present and contains rel="next".  An absent Link header and a Link header
without rel="next" both yield false, exactly as in the source. -/
structure PageResponse where
  data : List PullRequest
  hasNextLink : Bool
deriving DecidableEq

/-- An error thrown by a page request.  status is some n exactly when the
thrown value is Octokit-shaped (has a numeric status property). -/
structure UpstreamError where
  status : Option Int
  message : String
deriving DecidableEq

/-- The remote API: a deterministic response (or error) per page number. -/
abbrev Upstream : Type := Nat → Except UpstreamError PageResponse

/-- Substring test, modelling JS String.prototype.includes. -/
def strContains (s sub : String) : Bool :=
  (List.range (s.length + 1)).any (fun i => (s.toList.drop i).take sub.length == sub.toList)

/-- The catch block of fetchPullRequests: classify a thrown error into the
user-facing message.  A non-Octokit error, or an Octokit error with any
other status, falls through to the generic wrapped message. -/
def classifyFetchError (owner repo : String) (e : UpstreamError) : String :=
  match e.status with
  | some status =>
    if status = 404 then
      "Repository " ++ owner ++ "/" ++ repo ++ " not found or you don\x27t have access"
    else if status = 401 then
      "Authentication failed. Please check your GitHub token"
    else if status = 403 then
      if strContains e.message "rate limit" then
        "GitHub API rate limit exceeded. Please try again later"
      else
        "Access forbidden. Please check your token permissions"
    else
      "Failed to fetch pull requests: " ++ e.message
  | none => "Failed to fetch pull requests: " ++ e.message

/-- The cache key computed at the top of fetchPullRequests, from the
destructured options with their defaults applied. -/
def cacheKeyOf (opts : FetchPRsOptions) : String :=
  CacheService.generateKey opts.owner opts.repo
    (some ("prs-" ++ opts.state.getD "open" ++ "-" ++ opts.sort.getD "created" ++ "-" ++
      opts.direction.getD "desc"))

/-- The pagination while-loop of fetchPullRequests, by recursion on the
remaining page budget (maxPages + 1 - currentPage).  Arguments mirror the
loop state: currentPage, the accumulator allPRs, and the budget.  Returns
the accumulated items, the final hasNextPage flag and the final value of
currentPage.  The loop body: an empty page breaks with hasNextPage =
false before the increment; otherwise items are accumulated, hasNextPage
is read off the Link header and currentPage is incremented before the
condition hasNextPage && currentPage <= maxPages is re-checked. -/
def fetchLoop (pages : Upstream) (currentPage : Nat) (acc : List PullRequest) :
    Nat → Except UpstreamError (List PullRequest × Bool × Nat)
  | 0 => .ok (acc, true, currentPage)
  | remaining + 1 =>
    match pages currentPage with
    | .error e => .error e
    | .ok page =>
      if page.data.isEmpty then .ok (acc, false, currentPage)
      else if page.hasNextLink then fetchLoop pages (currentPage + 1) (acc ++ page.data) remaining
      else .ok (acc ++ page.data, false, currentPage + 1)

/-- GitHubService.fetchPullRequests: check the cache (whose lookup may
lazily evict an expired entry), run the page loop on a miss, build the
result with pagination summary, cache it with the default TTL on success,
and classify the thrown error on failure.  Explicit state passing: the
upstream API, the cache map and the current instant are arguments, and
the possibly-updated cache map is returned alongside the result. -/
def fetchPullRequests (opts : FetchPRsOptions) (pages : Upstream)
    (cache : CacheMap FetchResult) (now : Int) :
    Except String FetchResult × CacheMap FetchResult :=
  let perPage := opts.perPage.getD 30
  let maxPages := opts.maxPages.getD 5
  let cacheKey := cacheKeyOf opts
  match CacheService.get cache cacheKey now with
  | (some cached, cache1) => (.ok cached, cache1)
  | (none, cache1) =>
    match fetchLoop pages 1 [] maxPages with
    | .error e => (.error (classifyFetchError opts.owner opts.repo e), cache1)
    | .ok (allPRs, hasNext, currentPage) =>
      let result : FetchResult :=
        { prs := allPRs
          pagination :=
            { page := currentPage - 1
              perPage := perPage
              hasNextPage := hasNext
              totalFetched := allPRs.length } }
      (.ok result, CacheService.set cache1 cacheKey result none now)

/-! ## Claim C5: cache key determinism -/

/-- C5: generateKey is deterministic on its examples, and the cache key
computed by fetchPullRequests depends only on (owner, repo, state, sort,
direction), never on perPage or maxPages. -/
theorem cache_key_deterministic_and_pagination_free :
    CacheService.generateKey "o" "r" none = "o/r" ∧
    CacheService.generateKey "o" "r" (some "x") = "o/r:x" ∧
    ∀ (owner repo : String) (state sort direction : Option String)
      (pp1 mp1 pp2 mp2 : Option Nat),
      cacheKeyOf ⟨owner, repo, state, sort, direction, pp1, mp1⟩ =
        cacheKeyOf ⟨owner, repo, state, sort, direction, pp2, mp2⟩ := by
  refine ⟨rfl, by decide, ?_⟩
  intro owner repo state sort direction pp1 mp1 pp2 mp2
  rfl

/-! ## Claim C6: credential-shape validator (corrected: the source trims
the token before every check, so the raw string's length and leading
characters are not what is tested) -/

/-- A token whose raw length is exactly 40 and which starts with ghp_,
but whose trailing space makes the trimmed string one character short. -/
def rawPaddedToken : String := "ghp_" ++ String.mk (List.replicate 35 'a') ++ " "

/-- C6 counterexample: this raw string has length 40 and starts with
ghp_, so the claim says it is accepted, yet the validator rejects it
because it trims the trailing space first (trimmed length 39). -/
theorem token_format_raw_iff_counterexample :
    rawPaddedToken.length = 40 ∧ jsStartsWith rawPaddedToken "ghp_" = true ∧
      Validator.isValidTokenFormat rawPaddedToken = false := by decide

/-- C6 amended: the validator accepts iff the TRIMMED string has length
at least 40 and either starts with ghp_, starts with github_pat_, or is
purely hexadecimal. -/
theorem token_format_accepts_iff_trimmed (s : String) :
    Validator.isValidTokenFormat s = true ↔
      (40 ≤ (jsTrim s).length ∧
        (jsStartsWith (jsTrim s) "ghp_" = true ∨ jsStartsWith (jsTrim s) "github_pat_" = true ∨
          isHexString (jsTrim s) = true)) := by
  unfold Validator.isValidTokenFormat
  by_cases h : s = ""
  · subst h
    simp [jsTrim, isJsWhitespace]
  · simp [h, Bool.and_eq_true, Bool.or_eq_true, decide_eq_true_eq, or_assoc]

/-- Witness for C6 at the claim's own example: ghp_ followed by forty
letters a is accepted. -/
theorem token_format_accepts_iff_trimmed_witness :
    Validator.isValidTokenFormat ("ghp_" ++ String.mk (List.replicate 40 'a')) = true :=
  (token_format_accepts_iff_trimmed ("ghp_" ++ String.mk (List.replicate 40 'a'))).mpr
    (by constructor
        · decide
        · exact Or.inl (by decide))

/-! ## Loop lemmas for the fetcher claims -/

/-- The final hasNextPage flag of a successful loop run is true exactly
when every page in the remaining budget came back nonempty and with a
rel="next" Link indication. -/
theorem fetchLoop_flag_iff (pages : Upstream) :
    ∀ (remaining currentPage : Nat) (acc l : List PullRequest) (flag : Bool) (cpf : Nat),
      fetchLoop pages currentPage acc remaining = .ok (l, flag, cpf) →
      (flag = true ↔ ∀ p, currentPage ≤ p → p < currentPage + remaining →
        ∃ pg, pages p = .ok pg ∧ pg.data ≠ [] ∧ pg.hasNextLink = true) := by
  intro remaining
  induction remaining with
  | zero =>
    intro cp acc l flag cpf h
    simp only [fetchLoop, Except.ok.injEq, Prod.mk.injEq] at h
    obtain ⟨-, hflag, -⟩ := h
    subst hflag
    constructor
    · intro _ p h1 h2
      omega
    · intro _
      rfl
  | succ remaining ih =>
    intro cp acc l flag cpf h
    simp only [fetchLoop] at h
    cases hp : pages cp with
    | error e =>
      simp only [hp] at h
      exact absurd h (by simp)
    | ok pg =>
      simp only [hp] at h
      by_cases hempty : pg.data.isEmpty
      · rw [if_pos hempty] at h
        simp only [Except.ok.injEq, Prod.mk.injEq] at h
        obtain ⟨-, hflag, -⟩ := h
        subst hflag
        apply iff_of_false (by simp)
        intro hall
        obtain ⟨pg2, hpg2, hne, -⟩ := hall cp (le_refl cp) (by omega)
        rw [hp] at hpg2
        cases hpg2
        exact hne (List.isEmpty_iff.mp hempty)
      · by_cases hlink : pg.hasNextLink
        · rw [if_neg hempty, if_pos hlink] at h
          rw [ih (cp + 1) (acc ++ pg.data) l flag cpf h]
          constructor
          · intro hall p h1 h2
            by_cases hpcp : p = cp
            · subst hpcp
              exact ⟨pg, hp, fun he => hempty (by simp [he]), hlink⟩
            · exact hall p (by omega) (by omega)
          · intro hall p h1 h2
            exact hall p (by omega) (by omega)
        · rw [if_neg hempty, if_neg hlink] at h
          simp only [Except.ok.injEq, Prod.mk.injEq] at h
          obtain ⟨-, hflag, -⟩ := h
          subst hflag
          apply iff_of_false (by simp)
          intro hall
          obtain ⟨pg2, hpg2, -, hl2⟩ := hall cp (le_refl cp) (by omega)
          rw [hp] at hpg2
          cases hpg2
          exact hlink (by simp [hl2])

/-- Number of pages whose items the loop accumulates, mirroring the loop
control flow. -/
def accumulatedPages (pages : Upstream) (currentPage : Nat) : Nat → Nat
  | 0 => 0
  | remaining + 1 =>
    match pages currentPage with
    | .error _ => 0
    | .ok pg =>
      if pg.data.isEmpty then 0
      else if pg.hasNextLink then 1 + accumulatedPages pages (currentPage + 1) remaining
      else 1

/-- The final currentPage of a successful loop run, minus one, counts the
pages that contributed items. -/
theorem fetchLoop_page_count (pages : Upstream) :
    ∀ (remaining currentPage : Nat) (acc l : List PullRequest) (flag : Bool) (cpf : Nat),
      1 ≤ currentPage →
      fetchLoop pages currentPage acc remaining = .ok (l, flag, cpf) →
      cpf - 1 = (currentPage - 1) + accumulatedPages pages currentPage remaining := by
  intro remaining
  induction remaining with
  | zero =>
    intro cp acc l flag cpf hcp h
    simp only [fetchLoop, Except.ok.injEq, Prod.mk.injEq] at h
    obtain ⟨-, -, hcpf⟩ := h
    subst hcpf
    simp [accumulatedPages]
  | succ remaining ih =>
    intro cp acc l flag cpf hcp h
    simp only [fetchLoop] at h
    cases hp : pages cp with
    | error e =>
      simp only [hp] at h
      exact absurd h (by simp)
    | ok pg =>
      simp only [hp] at h
      by_cases hempty : pg.data.isEmpty
      · rw [if_pos hempty] at h
        simp only [Except.ok.injEq, Prod.mk.injEq] at h
        obtain ⟨-, -, hcpf⟩ := h
        subst hcpf
        simp [accumulatedPages, hp, hempty]
      · by_cases hlink : pg.hasNextLink
        · rw [if_neg hempty, if_pos hlink] at h
          have := ih (cp + 1) (acc ++ pg.data) l flag cpf (by omega) h
          simp only [accumulatedPages, hp, if_neg hempty, if_pos hlink]
          omega
        · rw [if_neg hempty, if_neg hlink] at h
          simp only [Except.ok.injEq, Prod.mk.injEq] at h
          obtain ⟨-, -, hcpf⟩ := h
          subst hcpf
          simp only [accumulatedPages, hp, if_neg hempty, if_neg hlink]
          omega

/-! ## Claim C1: failure handling of fetchPullRequests (corrected: the
error path writes nothing, but the initial cache lookup may still have
lazily evicted an expired entry, so the cache state is not always
literally unchanged) -/

/-- C1 amended: on a cache miss, if the page loop fails, fetchPullRequests
propagates the classified error (per the 404/401/403-rate-limit/403/other
table), returns no partial items, writes no cache entry for the computed
key (the final cache is exactly the cache produced by the initial lookup,
which at most lazily evicts an already-expired entry at that key, and it
contains no entry for that key). -/
theorem fetch_error_aborts_classified_no_write (opts : FetchPRsOptions) (pages : Upstream)
    (cache : CacheMap FetchResult) (now : Int) (err : UpstreamError)
    (hmiss : (CacheService.get cache (cacheKeyOf opts) now).1 = none)
    (hfail : fetchLoop pages 1 [] (opts.maxPages.getD 5) = .error err) :
    fetchPullRequests opts pages cache now =
      (.error (classifyFetchError opts.owner opts.repo err),
        (CacheService.get cache (cacheKeyOf opts) now).2) ∧
    mapFind (fetchPullRequests opts pages cache now).2 (cacheKeyOf opts) = none ∧
    (∀ o r m, classifyFetchError o r ⟨some 404, m⟩ =
      "Repository " ++ o ++ "/" ++ r ++ " not found or you don\x27t have access") ∧
    (∀ o r m, classifyFetchError o r ⟨some 401, m⟩ =
      "Authentication failed. Please check your GitHub token") ∧
    (∀ o r m, strContains m "rate limit" = true → classifyFetchError o r ⟨some 403, m⟩ =
      "GitHub API rate limit exceeded. Please try again later") ∧
    (∀ o r m, strContains m "rate limit" = false → classifyFetchError o r ⟨some 403, m⟩ =
      "Access forbidden. Please check your token permissions") ∧
    (∀ o r m s, s ≠ 404 → s ≠ 401 → s ≠ 403 → classifyFetchError o r ⟨some s, m⟩ =
      "Failed to fetch pull requests: " ++ m) ∧
    (∀ o r m, classifyFetchError o r ⟨none, m⟩ = "Failed to fetch pull requests: " ++ m) := by
  have hmain : fetchPullRequests opts pages cache now =
      (.error (classifyFetchError opts.owner opts.repo err),
        (CacheService.get cache (cacheKeyOf opts) now).2) := by
    unfold fetchPullRequests
    cases hget : CacheService.get cache (cacheKeyOf opts) now with
    | mk o c1 =>
      rw [hget] at hmiss
      simp only at hmiss
      subst hmiss
      simp only [hget, hfail]
  refine ⟨hmain, ?_, ?_, ?_, ?_, ?_, ?_, ?_⟩
  · rw [hmain]
    simpa using get_none_find_none cache (cacheKeyOf opts) now hmiss
  · intro o r m
    rfl
  · intro o r m
    rfl
  · intro o r m hrl
    simp [classifyFetchError, hrl]
  · intro o r m hrl
    simp [classifyFetchError, hrl]
  · intro o r m s h4 h1 h3
    simp [classifyFetchError, h4, h1, h3]
  · intro o r m
    rfl

/-- Options with every optional field left to its default. -/
def opts0 : FetchPRsOptions := ⟨"o", "r", none, none, none, none, none⟩

/-- An upstream whose every page request throws a non-special error. -/
def failUpstream : Upstream := fun _ => .error ⟨some 500, "boom"⟩

/-- An arbitrary cached payload used to pre-populate the cache. -/
def dummyResult : FetchResult := ⟨[], ⟨0, 30, false, 0⟩⟩

/-- A cache holding an entry for the computed key whose TTL (100 ms,
written at t = 0) has long expired by t = 1000. -/
def staleCache : CacheMap FetchResult :=
  CacheService.set [] (cacheKeyOf opts0) dummyResult (some 100) 0

/-- C1 counterexample: with an expired entry under the computed key and a
failing upstream, the call aborts with the classified error as claimed,
but the cache state is NOT unchanged: the lookup evicted the expired
entry even though the fetch failed. -/
theorem fetch_error_cache_changed_counterexample :
    (fetchPullRequests opts0 failUpstream staleCache 1000).1 =
      .error "Failed to fetch pull requests: boom" ∧
    (fetchPullRequests opts0 failUpstream staleCache 1000).2 ≠ staleCache := by
  constructor
  · rfl
  · decide

/-- An upstream whose every page request fails with HTTP 404. -/
def err404Upstream : Upstream := fun _ => .error ⟨some 404, "Not Found"⟩

/-- Witness for the amended C1 at concrete inputs: empty cache, failing
404 upstream; the call returns the not-found message and the cache stays
empty. -/
theorem fetch_error_aborts_classified_no_write_witness :
    fetchPullRequests opts0 err404Upstream [] 0 =
      (.error ("Repository o/r not found or you don\x27t have access"),
        ([] : CacheMap FetchResult)) := by
  have h := fetch_error_aborts_classified_no_write opts0 err404Upstream [] 0
    ⟨some 404, "Not Found"⟩ rfl rfl
  exact h.1.trans (by rfl)

/-! ## Claim C2: hasNextPage semantics of a successful non-cache-hit fetch -/

/-- C2: on a cache miss that succeeds, the summary's hasNextPage is true
exactly when the loop consumed its whole maxPages budget with every page
in that budget coming back nonempty and still indicating a further page
(so the loop stopped only because the counter exceeded maxPages); in
particular, if some page within the budget returns zero items, the run
ends with hasNextPage = false regardless of maxPages. -/
theorem fetch_hasNextPage_iff_budget_exhausted (opts : FetchPRsOptions) (pages : Upstream)
    (cache : CacheMap FetchResult) (now : Int) (r : FetchResult) (c' : CacheMap FetchResult)
    (hmiss : (CacheService.get cache (cacheKeyOf opts) now).1 = none)
    (hok : fetchPullRequests opts pages cache now = (.ok r, c')) :
    (r.pagination.hasNextPage = true ↔
      ∀ p, 1 ≤ p → p ≤ opts.maxPages.getD 5 →
        ∃ pg, pages p = .ok pg ∧ pg.data ≠ [] ∧ pg.hasNextLink = true) ∧
    (∀ p pg, 1 ≤ p → p ≤ opts.maxPages.getD 5 → pages p = .ok pg → pg.data = [] →
      r.pagination.hasNextPage = false) := by
  unfold fetchPullRequests at hok
  cases hget : CacheService.get cache (cacheKeyOf opts) now with
  | mk o c1 =>
    rw [hget] at hmiss
    simp only at hmiss
    subst hmiss
    simp only [hget] at hok
    cases hloop : fetchLoop pages 1 [] (opts.maxPages.getD 5) with
    | error e =>
      simp only [hloop] at hok
      exact absurd (congrArg Prod.fst hok) (by simp)
    | ok t =>
      obtain ⟨allPRs, flag, cpf⟩ := t
      simp only [hloop] at hok
      have hr : r.pagination.hasNextPage = flag := by
        have := congrArg Prod.fst hok
        simp only [Except.ok.injEq] at this
        rw [← this]
      have hiff := fetchLoop_flag_iff pages (opts.maxPages.getD 5) 1 [] allPRs flag cpf hloop
      have hiff' : r.pagination.hasNextPage = true ↔
          ∀ p, 1 ≤ p → p ≤ opts.maxPages.getD 5 →
            ∃ pg, pages p = .ok pg ∧ pg.data ≠ [] ∧ pg.hasNextLink = true := by
        rw [hr, hiff]
        constructor
        · intro hall p h1 h2
          exact hall p h1 (by omega)
        · intro hall p h1 h2
          exact hall p h1 (by omega)
      refine ⟨hiff', ?_⟩
      intro p pg h1 h2 hpg hdata
      cases hflag : r.pagination.hasNextPage
      · rfl
      · exfalso
        obtain ⟨pg2, hpg2, hne, -⟩ := hiff'.mp hflag p h1 h2
        rw [hpg] at hpg2
        cases hpg2
        exact hne hdata

/-- A single nonempty item used by the concrete fetch runs. -/
def pr1 : PullRequest :=
  { id := 1, number := 1, title := "t", state := "open",
    user := ⟨"u", 1, "", ""⟩, body := none, created_at := "", updated_at := "",
    closed_at := none, merged_at := none, html_url := "", draft := false,
    labels := [], requested_reviewers := [], comments := 0, review_comments := 0,
    commits := 0, additions := 0, deletions := 0, changed_files := 0 }

/-- An upstream with endless nonempty pages that always advertise a next
page. -/
def fullUpstream : Upstream := fun _ => .ok ⟨[pr1], true⟩

/-- The result fetchPullRequests computes against fullUpstream with the
default budget of 5 pages. -/
def rFull : FetchResult := ⟨[pr1, pr1, pr1, pr1, pr1], ⟨5, 30, true, 5⟩⟩

/-- Witness for C2 at concrete inputs: the loop stops at maxPages = 5
with the upstream still indicating more, and hasNextPage is true. -/
theorem fetch_hasNextPage_iff_budget_exhausted_witness :
    rFull.pagination.hasNextPage = true := by
  have h := fetch_hasNextPage_iff_budget_exhausted opts0 fullUpstream [] 0 rFull
    (CacheService.set [] (cacheKeyOf opts0) rFull none 0) rfl rfl
  exact h.1.mpr (fun p h1 h2 => ⟨⟨[pr1], true⟩, rfl, by decide, rfl⟩)

/-! ## Claim C3: the page field of the pagination summary (corrected: the
summary's page equals the number of accumulated pages, which is one less
than the last page attempted exactly when the loop exits on an empty
page; the totalFetched part of the claim does hold) -/

/-- The page number of the final request the loop issues (0 when no
request is issued at all), mirroring the loop control flow.  This is the
claim's notion of "last page number attempted". -/
def lastPageAttempted (pages : Upstream) (currentPage : Nat) : Nat → Nat
  | 0 => currentPage - 1
  | remaining + 1 =>
    match pages currentPage with
    | .error _ => currentPage
    | .ok pg =>
      if pg.data.isEmpty then currentPage
      else if pg.hasNextLink then lastPageAttempted pages (currentPage + 1) remaining
      else currentPage

/-- An upstream whose very first page is empty. -/
def noPagesUpstream : Upstream := fun _ => .ok ⟨[], false⟩

/-- The result fetchPullRequests computes against noPagesUpstream. -/
def rEmpty : FetchResult := ⟨[], ⟨0, 30, false, 0⟩⟩

/-- C3 counterexample: when the very first page returns zero items, the
loop attempted page 1, yet the returned summary's page field is 0, not 1
(currentPage - 1 is computed after the break that skips the increment). -/
theorem pagination_page_field_counterexample :
    lastPageAttempted noPagesUpstream 1 5 = 1 ∧
    (fetchPullRequests opts0 noPagesUpstream [] 0).1 = .ok rEmpty ∧
    rEmpty.pagination.page = 0 := by
  refine ⟨rfl, rfl, rfl⟩

/-- C3 amended: on a successful cache miss, the summary's page field
equals the number of pages whose items were accumulated - that is, the
last page attempted except when the loop exits on an empty page, where it
is that page number minus one - and totalFetched equals the count of
accumulated items. -/
theorem pagination_page_and_totalFetched (opts : FetchPRsOptions) (pages : Upstream)
    (cache : CacheMap FetchResult) (now : Int) (r : FetchResult) (c' : CacheMap FetchResult)
    (hmiss : (CacheService.get cache (cacheKeyOf opts) now).1 = none)
    (hok : fetchPullRequests opts pages cache now = (.ok r, c')) :
    r.pagination.page = accumulatedPages pages 1 (opts.maxPages.getD 5) ∧
    r.pagination.totalFetched = r.prs.length := by
  unfold fetchPullRequests at hok
  cases hget : CacheService.get cache (cacheKeyOf opts) now with
  | mk o c1 =>
    rw [hget] at hmiss
    simp only at hmiss
    subst hmiss
    simp only [hget] at hok
    cases hloop : fetchLoop pages 1 [] (opts.maxPages.getD 5) with
    | error e =>
      simp only [hloop] at hok
      exact absurd (congrArg Prod.fst hok) (by simp)
    | ok t =>
      obtain ⟨allPRs, flag, cpf⟩ := t
      simp only [hloop] at hok
      have hr := congrArg Prod.fst hok
      simp only [Except.ok.injEq] at hr
      have hcount := fetchLoop_page_count pages (opts.maxPages.getD 5) 1 [] allPRs flag cpf
        (le_refl 1) hloop
      constructor
      · rw [← hr]
        simpa using hcount
      · rw [← hr]

/-- Witness for the amended C3 at concrete inputs: an empty first page
gives page = 0 accumulated pages and totalFetched = 0 items. -/
theorem pagination_page_and_totalFetched_witness :
    rEmpty.pagination.page = accumulatedPages noPagesUpstream 1 5 ∧
    rEmpty.pagination.totalFetched = rEmpty.prs.length :=
  pagination_page_and_totalFetched opts0 noPagesUpstream [] 0 rEmpty
    (CacheService.set [] (cacheKeyOf opts0) rEmpty none 0) rfl rfl

/-! ## Query stage (src/utils/formatter.ts): filter -/

/-- FilterOptions: optional author login, label name, minimum combined
comment count. -/
structure FilterOptions where
  author : Option String
  label : Option String
  minComments : Option Nat

/-- Formatter.filterPullRequests: conjunctive application of each present
criterion.  The author and label guards use JS truthiness, so a present
but empty string imposes no constraint; minComments is compared against
undefined, so a present 0 does filter (vacuously). -/
def filterPullRequests (prs : List PullRequest) (options : FilterOptions) :
    List PullRequest :=
  let f1 :=
    match options.author with
    | some a =>
      if a = "" then prs
      else prs.filter (fun pr => pr.user.login.toLower == a.toLower)
    | none => prs
  let f2 :=
    match options.label with
    | some lbl =>
      if lbl = "" then f1
      else f1.filter (fun pr => pr.labels.any (fun l => l.name.toLower == lbl.toLower))
    | none => f1
  match options.minComments with
  | some m => f2.filter (fun pr => decide (m ≤ pr.comments + pr.review_comments))
  | none => f2

/-- The conjunction of the three (possibly absent) criteria as a single
predicate. -/
def filterPred (options : FilterOptions) (pr : PullRequest) : Bool :=
  (match options.author with
   | some a => if a = "" then true else pr.user.login.toLower == a.toLower
   | none => true) &&
  (match options.label with
   | some lbl =>
     if lbl = "" then true else pr.labels.any (fun l => l.name.toLower == lbl.toLower)
   | none => true) &&
  (match options.minComments with
   | some m => decide (m ≤ pr.comments + pr.review_comments)
   | none => true)

theorem filterPullRequests_eq_filter (prs : List PullRequest) (options : FilterOptions) :
    filterPullRequests prs options = prs.filter (fun pr => filterPred options pr) := by
  obtain ⟨a, lbl, m⟩ := options
  cases a with
  | none =>
    cases lbl with
    | none =>
      cases m with
      | none => exact (List.filter_true prs).symm
      | some m => rfl
    | some lbl =>
      by_cases hl : lbl = ""
      · subst hl
        cases m with
        | none => exact (List.filter_true prs).symm
        | some m => rfl
      · cases m with
        | none =>
          simp only [filterPullRequests, if_neg hl]
          refine List.filter_congr (fun pr _ => ?_)
          simp [filterPred, hl]
        | some m =>
          simp only [filterPullRequests, if_neg hl, List.filter_filter]
          refine List.filter_congr (fun pr _ => ?_)
          simp [filterPred, hl, Bool.and_comm, Bool.and_left_comm, Bool.and_assoc]
  | some a =>
    by_cases ha : a = ""
    · subst ha
      cases lbl with
      | none =>
        cases m with
        | none => exact (List.filter_true prs).symm
        | some m => rfl
      | some lbl =>
        by_cases hl : lbl = ""
        · subst hl
          cases m with
          | none => exact (List.filter_true prs).symm
          | some m => rfl
        · cases m with
          | none =>
            simp only [filterPullRequests, if_neg hl, if_true]
            refine List.filter_congr (fun pr _ => ?_)
            simp [filterPred, hl]
          | some m =>
            simp only [filterPullRequests, if_neg hl, if_true, List.filter_filter]
            refine List.filter_congr (fun pr _ => ?_)
            simp [filterPred, hl, Bool.and_comm, Bool.and_left_comm, Bool.and_assoc]
    · cases lbl with
      | none =>
        cases m with
        | none =>
          simp only [filterPullRequests, if_neg ha]
          refine List.filter_congr (fun pr _ => ?_)
          simp [filterPred, ha]
        | some m =>
          simp only [filterPullRequests, if_neg ha, List.filter_filter]
          refine List.filter_congr (fun pr _ => ?_)
          simp [filterPred, ha, Bool.and_comm, Bool.and_left_comm, Bool.and_assoc]
      | some lbl =>
        by_cases hl : lbl = ""
        · subst hl
          cases m with
          | none =>
            simp only [filterPullRequests, if_neg ha, if_true]
            refine List.filter_congr (fun pr _ => ?_)
            simp [filterPred, ha]
          | some m =>
            simp only [filterPullRequests, if_neg ha, if_true, List.filter_filter]
            refine List.filter_congr (fun pr _ => ?_)
            simp [filterPred, ha, Bool.and_comm, Bool.and_left_comm, Bool.and_assoc]
        · cases m with
          | none =>
            simp only [filterPullRequests, if_neg ha, if_neg hl, List.filter_filter]
            refine List.filter_congr (fun pr _ => ?_)
            simp [filterPred, ha, hl, Bool.and_comm, Bool.and_left_comm, Bool.and_assoc]
          | some m =>
            simp only [filterPullRequests, if_neg ha, if_neg hl, List.filter_filter]
            refine List.filter_congr (fun pr _ => ?_)
            simp [filterPred, ha, hl, Bool.and_comm, Bool.and_left_comm, Bool.and_assoc]

/-! ## Claim C8: filter is an idempotent pure reduction -/

/-- C8: filtering twice with the same criteria equals filtering once, and
filtering with no criteria present returns the input list itself (the
embedding is purely functional, so the input is never mutated). -/
theorem filter_idempotent_and_empty_criteria_noop :
    (∀ (prs : List PullRequest) (options : FilterOptions),
      filterPullRequests (filterPullRequests prs options) options =
        filterPullRequests prs options) ∧
    (∀ prs : List PullRequest, filterPullRequests prs ⟨none, none, none⟩ = prs) := by
  constructor
  · intro prs options
    rw [filterPullRequests_eq_filter, filterPullRequests_eq_filter,
      List.filter_filter]
    apply List.filter_congr
    intro pr _
    cases h : filterPred options pr <;> simp [h]
  · intro prs
    rfl

/-! ## Query stage (src/utils/formatter.ts): sort -/

/-- SortOptions.field values. -/
inductive SortField
  | created
  | updated
  | comments
  | title
deriving DecidableEq

/-- SortOptions.direction values. -/
inductive SortDirection
  | asc
  | desc
deriving DecidableEq

/-- SortOptions. -/
structure SortOptions where
  field : SortField
  direction : SortDirection

/-- Lexicographic strict comparison of character lists. -/
def charListLt : List Char → List Char → Bool
  | [], [] => false
  | [], _ :: _ => true
  | _ :: _, [] => false
  | a :: as, b :: bs => if a < b then true else if b < a then false else charListLt as bs

/-- Strict string order underlying the localeCompare model. -/
def strLt (a b : String) : Bool := charListLt a.toList b.toList

/-- Model of String.prototype.localeCompare: negative when the receiver
sorts before the argument, positive after, zero when equivalent.  The
locale collation is modelled as code-point order; only its total-order
shape (and that equal strings compare equal) matters here. -/
def localeCompare (a b : String) : Int :=
  if strLt a b then -1 else if strLt b a then 1 else 0

/-- The compareValue switch of Formatter.sortPullRequests.  Date parsing
(new Date(s).getTime()) is the explicit environment parameter getTime. -/
def compareValue (getTime : String → Int) (f : SortField) (a b : PullRequest) : Int :=
  match f with
  | .created => getTime a.created_at - getTime b.created_at
  | .updated => getTime a.updated_at - getTime b.updated_at
  | .comments =>
    ((a.comments : Int) + (a.review_comments : Int)) -
      ((b.comments : Int) + (b.review_comments : Int))
  | .title => localeCompare a.title b.title

/-- The comparator passed to Array.prototype.sort: the ascending
compareValue, negated when direction is desc. -/
def sortComparator (getTime : String → Int) (options : SortOptions)
    (a b : PullRequest) : Int :=
  match options.direction with
  | .asc => compareValue getTime options.field a b
  | .desc => -(compareValue getTime options.field a b)

/-- Formatter.sortPullRequests: copy the array and sort it with the
comparator.  Array.prototype.sort is stable (ES2019), and for a
consistent comparator every stable sort produces the same sequence, so
it is modelled by stable insertion sort on the relation "comparator at
most zero". -/
def sortPullRequests (getTime : String → Int) (prs : List PullRequest)
    (options : SortOptions) : List PullRequest :=
  List.insertionSort (fun a b => sortComparator getTime options a b ≤ 0) prs

theorem charListLt_asymm : ∀ as bs : List Char,
    charListLt as bs = true → charListLt bs as = false := by
  intro as
  induction as with
  | nil =>
    intro bs h
    cases bs with
    | nil => exact absurd h (by simp [charListLt])
    | cons b bs => rfl
  | cons a as ih =>
    intro bs h
    cases bs with
    | nil => exact absurd h (by simp [charListLt])
    | cons b bs =>
      simp only [charListLt] at h ⊢
      by_cases hab : a < b
      · rw [if_neg (lt_asymm hab), if_pos hab]
      · rw [if_neg hab] at h
        by_cases hba : b < a
        · rw [if_pos hba] at h
          exact absurd h (by simp)
        · rw [if_neg hba] at h
          rw [if_neg hba, if_neg hab]
          exact ih bs h

theorem charListLt_le_trans : ∀ as bs cs : List Char,
    charListLt bs as = false → charListLt cs bs = false → charListLt cs as = false := by
  intro as
  induction as with
  | nil =>
    intro bs cs h1 h2
    cases cs with
    | nil => rfl
    | cons c cs => rfl
  | cons a as ih =>
    intro bs cs h1 h2
    cases bs with
    | nil => exact absurd h1 (by simp [charListLt])
    | cons b bs =>
      cases cs with
      | nil => exact absurd h2 (by simp [charListLt])
      | cons c cs =>
        simp only [charListLt] at h1 h2 ⊢
        by_cases hba : b < a
        · rw [if_pos hba] at h1
          exact absurd h1 (by simp)
        · rw [if_neg hba] at h1
          by_cases hcb : c < b
          · rw [if_pos hcb] at h2
            exact absurd h2 (by simp)
          · rw [if_neg hcb] at h2
            have hca : ¬ c < a := fun h =>
              absurd (lt_of_lt_of_le h (le_of_not_lt hba)) hcb
            rw [if_neg hca]
            by_cases hac : a < c
            · rw [if_pos hac]
            · rw [if_neg hac]
              by_cases hab : a < b
              · exact absurd (lt_of_lt_of_le hab (le_of_not_lt hcb)) hac
              · rw [if_neg hab] at h1
                by_cases hbc : b < c
                · exact absurd
                    (lt_of_lt_of_le hbc (le_trans (le_of_not_lt hac) (le_of_not_lt hba)))
                    (lt_irrefl b)
                · rw [if_neg hbc] at h2
                  exact ih bs cs h1 h2

theorem localeCompare_antisymm (a b : String) :
    localeCompare b a = -(localeCompare a b) := by
  unfold localeCompare
  cases h1 : strLt a b with
  | true =>
    have h2 : strLt b a = false := charListLt_asymm _ _ h1
    simp [h2]
  | false =>
    cases h2 : strLt b a with
    | true => simp
    | false => simp

theorem localeCompare_le_zero (a b : String) :
    localeCompare a b ≤ 0 ↔ strLt b a = false := by
  unfold localeCompare
  cases h1 : strLt a b with
  | true =>
    have h2 : strLt b a = false := charListLt_asymm _ _ h1
    simp [h2]
  | false =>
    cases h2 : strLt b a with
    | true => simp
    | false => simp

theorem compareValue_antisymm (g : String → Int) (f : SortField) (a b : PullRequest) :
    compareValue g f b a = -(compareValue g f a b) := by
  cases f with
  | created =>
    simp only [compareValue]
    omega
  | updated =>
    simp only [compareValue]
    omega
  | comments =>
    simp only [compareValue]
    omega
  | title => exact localeCompare_antisymm a.title b.title

theorem compareValue_le_trans (g : String → Int) (f : SortField) (a b c : PullRequest)
    (hab : compareValue g f a b ≤ 0) (hbc : compareValue g f b c ≤ 0) :
    compareValue g f a c ≤ 0 := by
  cases f with
  | created =>
    simp only [compareValue] at *
    omega
  | updated =>
    simp only [compareValue] at *
    omega
  | comments =>
    simp only [compareValue] at *
    omega
  | title =>
    simp only [compareValue, localeCompare_le_zero] at *
    exact charListLt_le_trans _ _ _ hab hbc

/-! ## Claim C7: descending sort versus reversed ascending sort
(corrected: the descending comparator is the negated ascending one, and
with pairwise distinct sort keys the descending result is exactly the
reversed ascending result, but with tied keys the sort's stability keeps
tied items in input order in BOTH directions, so the reversal fails) -/

/-- A time environment that maps every date string to 0. -/
def zeroTime : String → Int := fun _ => 0

/-- Two distinct items with the same title (a tied sort key). -/
def prDupA : PullRequest := { pr1 with id := 1, number := 1, title := "Same" }

/-- Second of the two tied items. -/
def prDupB : PullRequest := { pr1 with id := 2, number := 2, title := "Same" }

/-- C7 counterexample: with two equal-title items, sorting by title desc
yields the items in input order (stability), which is NOT the reverse of
the ascending result (also input order). -/
theorem sort_desc_not_reverse_of_ties :
    sortPullRequests zeroTime [prDupA, prDupB] ⟨SortField.title, SortDirection.desc⟩ ≠
      (sortPullRequests zeroTime [prDupA, prDupB] ⟨SortField.title, SortDirection.asc⟩).reverse := by
  decide

/-- C7 amended: the descending comparator is exactly the negation of the
ascending one (no separate code path); sort returns a permutation of its
input (the input sequence itself is untouched in this purely functional
embedding); and whenever the sort keys are pairwise distinct (no ties),
sorting desc produces exactly the reverse of sorting asc. -/
theorem sort_desc_negates_asc_and_reverses :
    (∀ (g : String → Int) (f : SortField) (a b : PullRequest),
      sortComparator g ⟨f, SortDirection.desc⟩ a b =
        -(sortComparator g ⟨f, SortDirection.asc⟩ a b)) ∧
    (∀ (g : String → Int) (o : SortOptions) (prs : List PullRequest),
      (sortPullRequests g prs o).Perm prs) ∧
    (∀ (g : String → Int) (f : SortField) (prs : List PullRequest),
      List.Pairwise (fun a b => compareValue g f a b ≠ 0) prs →
      sortPullRequests g prs ⟨f, SortDirection.desc⟩ =
        (sortPullRequests g prs ⟨f, SortDirection.asc⟩).reverse) := by
  refine ⟨fun g f a b => rfl, fun g o prs => List.perm_insertionSort _ prs, ?_⟩
  intro g f prs hpw
  have hanti : ∀ a b : PullRequest, compareValue g f b a = -(compareValue g f a b) :=
    compareValue_antisymm g f
  show List.insertionSort (fun a b => -(compareValue g f a b) ≤ 0) prs =
    (List.insertionSort (fun a b => compareValue g f a b ≤ 0) prs).reverse
  haveI totA : IsTotal PullRequest (fun a b => compareValue g f a b ≤ 0) := by
    constructor
    intro a b
    have h := hanti a b
    omega
  haveI totD : IsTotal PullRequest (fun a b => -(compareValue g f a b) ≤ 0) := by
    constructor
    intro a b
    have h := hanti a b
    omega
  haveI transA : IsTrans PullRequest (fun a b => compareValue g f a b ≤ 0) := by
    constructor
    intro a b c hab hbc
    exact compareValue_le_trans g f a b c hab hbc
  haveI transD : IsTrans PullRequest (fun a b => -(compareValue g f a b) ≤ 0) := by
    constructor
    intro a b c hab hbc
    have h := compareValue_le_trans g f c b a (by have := hanti b c; omega)
      (by have := hanti a b; omega)
    have h2 := hanti a c
    omega
  have hsym : ∀ {x y : PullRequest},
      compareValue g f x y ≠ 0 → compareValue g f y x ≠ 0 := by
    intro x y h
    rw [hanti x y]
    omega
  have hA_sorted := List.sorted_insertionSort
    (fun a b : PullRequest => compareValue g f a b ≤ 0) prs
  have hD_sorted := List.sorted_insertionSort
    (fun a b : PullRequest => -(compareValue g f a b) ≤ 0) prs
  have hpwA : List.Pairwise (fun a b => compareValue g f a b ≠ 0)
      (List.insertionSort (fun a b => compareValue g f a b ≤ 0) prs) :=
    (List.Perm.pairwise_iff (fun {x y} => hsym)
      (List.perm_insertionSort _ prs)).mpr hpw
  have hpwD : List.Pairwise (fun a b => compareValue g f a b ≠ 0)
      (List.insertionSort (fun a b => -(compareValue g f a b) ≤ 0) prs) :=
    (List.Perm.pairwise_iff (fun {x y} => hsym)
      (List.perm_insertionSort _ prs)).mpr hpw
  have hA_strict : List.Pairwise (fun a b => compareValue g f a b < 0)
      (List.insertionSort (fun a b => compareValue g f a b ≤ 0) prs) :=
    (hA_sorted.and hpwA).imp (fun {a b} h => by
      obtain ⟨h1, h2⟩ := h
      omega)
  have hD_strict : List.Pairwise (fun a b => 0 < compareValue g f a b)
      (List.insertionSort (fun a b => -(compareValue g f a b) ≤ 0) prs) :=
    (hD_sorted.and hpwD).imp (fun {a b} h => by
      obtain ⟨h1, h2⟩ := h
      omega)
  have hDrev_strict : List.Pairwise (fun a b => compareValue g f a b < 0)
      (List.insertionSort (fun a b => -(compareValue g f a b) ≤ 0) prs).reverse := by
    rw [List.pairwise_reverse]
    exact hD_strict.imp (fun {a b} h => by
      have := hanti a b
      omega)
  haveI antisymmStrict : IsAntisymm PullRequest (fun a b => compareValue g f a b < 0) := by
    constructor
    intro a b h1 h2
    exfalso
    rw [hanti a b] at h2
    omega
  have hperm : (List.insertionSort (fun a b => -(compareValue g f a b) ≤ 0) prs).reverse.Perm
      (List.insertionSort (fun a b => compareValue g f a b ≤ 0) prs) :=
    ((List.reverse_perm _).trans (List.perm_insertionSort _ prs)).trans
      (List.perm_insertionSort _ prs).symm
  have hfinal := List.eq_of_perm_of_sorted hperm hDrev_strict hA_strict
  have h2 := congrArg List.reverse hfinal
  exact (List.reverse_reverse _).symm.trans h2

/-- An item with a title that sorts strictly before prBeta's. -/
def prAlpha : PullRequest := { pr1 with id := 3, number := 3, title := "Alpha" }

/-- An item with a title that sorts strictly after prAlpha's. -/
def prBeta : PullRequest := { pr1 with id := 4, number := 4, title := "Beta" }

/-- Witness for the amended C7 at concrete inputs with distinct titles. -/
theorem sort_desc_negates_asc_and_reverses_witness :
    sortPullRequests zeroTime [prAlpha, prBeta] ⟨SortField.title, SortDirection.desc⟩ =
      (sortPullRequests zeroTime [prAlpha, prBeta] ⟨SortField.title, SortDirection.asc⟩).reverse :=
  sort_desc_negates_asc_and_reverses.2.2 zeroTime SortField.title [prAlpha, prBeta]
    (by decide)

/-! ## Presenter (src/utils/formatter.ts): display formats -/

/-- DisplayFormat values. -/
inductive DisplayFormat
  | compact
  | detailed
  | json
deriving DecidableEq

/-- The ANSI escape character used by chalk. -/
def ansiEsc : String := String.mk [Char.ofNat 27]

/-- An ANSI SGR open/close pair around a string, as chalk emits when
colour output is enabled. -/
def ansiWrap (o c : Nat) (s : String) : String :=
  ansiEsc ++ "[" ++ toString o ++ "m" ++ s ++ ansiEsc ++ "[" ++ toString c ++ "m"

/-- chalk.yellow. -/
def chalkYellow : String → String := ansiWrap 33 39

/-- chalk.blue. -/
def chalkBlue : String → String := ansiWrap 34 39

/-- chalk.green. -/
def chalkGreen : String → String := ansiWrap 32 39

/-- chalk.gray. -/
def chalkGray : String → String := ansiWrap 90 39

/-- chalk.white. -/
def chalkWhite : String → String := ansiWrap 37 39

/-- chalk.magenta. -/
def chalkMagenta : String → String := ansiWrap 35 39

/-- chalk.cyan. -/
def chalkCyan : String → String := ansiWrap 36 39

/-- chalk.red. -/
def chalkRed : String → String := ansiWrap 31 39

/-- chalk.bold. -/
def chalkBold : String → String := ansiWrap 1 22

/-- chalk.bold.cyan. -/
def chalkBoldCyan (s : String) : String := chalkBold (chalkCyan s)

/-- chalk.hex(color): truecolor styling of label names.  The colour
escape codes are elided in this model (no claim inspects them); the text
content is preserved. -/
def chalkHex (_color s : String) : String := s

/-- JS truthiness of a nullable string: null and the empty string are
falsy. -/
def truthyStr : Option String → Bool
  | some s => s != ""
  | none => false

/-- The ambient JS Date facilities used by the formatter, passed as an
explicit environment: Date parsing (getTime) and
toLocaleDateString-style absolute rendering. -/
structure JsDate where
  getTime : String → Int
  localeDateString : Int → String

/-- Formatter.formatDate: relative-age rendering against "now", with
Math.floor modelled by integer floor division. -/
def formatDate (env : JsDate) (now : Int) (dateString : String) : String :=
  let date := env.getTime dateString
  let diffMs := now - date
  let diffDays := Int.fdiv diffMs (1000 * 60 * 60 * 24)
  let diffHours := Int.fdiv diffMs (1000 * 60 * 60)
  let diffMinutes := Int.fdiv diffMs (1000 * 60)
  if diffMinutes < 60 then
    toString diffMinutes ++ " minute" ++ (if diffMinutes ≠ 1 then "s" else "") ++ " ago"
  else if diffHours < 24 then
    toString diffHours ++ " hour" ++ (if diffHours ≠ 1 then "s" else "") ++ " ago"
  else if diffDays < 30 then
    toString diffDays ++ " day" ++ (if diffDays ≠ 1 then "s" else "") ++ " ago"
  else env.localeDateString date

/-- Formatter.formatStatus: merged, else closed, else draft, else open,
testing the nullable timestamps by JS truthiness. -/
def formatStatus (pr : PullRequest) : String :=
  if truthyStr pr.merged_at then chalkMagenta "✓ Merged"
  else if truthyStr pr.closed_at then chalkRed "✗ Closed"
  else if pr.draft then chalkYellow "○ Draft"
  else chalkGreen "○ Open"

/-- Formatter.formatCompact: header line plus one two-line entry per
item, joined with newlines. -/
def formatCompact (env : JsDate) (now : Int) (prs : List PullRequest) : String :=
  let header := chalkBoldCyan ("\n📋 Found " ++ toString prs.length ++ " pull request(s):\n")
  let entries := prs.enum.map (fun p =>
    let index := p.1
    let pr := p.2
    let number := chalkBlue ("#" ++ toString pr.number)
    let title := chalkWhite pr.title
    let author := chalkGreen ("@" ++ pr.user.login)
    let date := chalkGray (formatDate env now pr.created_at)
    let status := if pr.draft then chalkYellow "[DRAFT]" else ""
    let comments := pr.comments + pr.review_comments
    let commentBadge := if 0 < comments then chalkMagenta ("💬 " ++ toString comments) else ""
    chalkGray (toString (index + 1) ++ ".") ++ " " ++ number ++ " " ++ title ++ " " ++ status ++
      "\n   " ++ author ++ " • " ++ date ++ " " ++ commentBadge)
  String.intercalate "\n" (header :: entries)

/-- One detailed block: the lines pushed for a single item.  The body
preview truncates to 150 characters with newlines replaced by spaces and
an ellipsis when truncated. -/
def detailedEntry (env : JsDate) (now : Int) (p : Nat × PullRequest) : List String :=
  let index := p.1
  let pr := p.2
  let stats := [
    "💬 " ++ toString (pr.comments + pr.review_comments) ++ " comments",
    "📝 " ++ toString pr.commits ++ " commits",
    "+" ++ toString pr.additions ++ " -" ++ toString pr.deletions,
    toString pr.changed_files ++ " files"]
  [chalkBold (toString (index + 1) ++ ". PR #" ++ toString pr.number ++ ": " ++ pr.title),
    chalkGray (String.mk (List.replicate 80 '─')),
    chalkBold "Author:" ++ " " ++ chalkGreen pr.user.login,
    chalkBold "Created:" ++ " " ++ formatDate env now pr.created_at,
    chalkBold "Updated:" ++ " " ++ formatDate env now pr.updated_at,
    chalkBold "Status:" ++ " " ++ formatStatus pr,
    chalkBold "URL:" ++ " " ++ chalkCyan pr.html_url,
    chalkBold "Stats:" ++ " " ++ String.intercalate " • " stats] ++
  (if 0 < pr.labels.length then
    [chalkBold "Labels:" ++ " " ++
      String.intercalate ", " (pr.labels.map (fun l => chalkHex ("#" ++ l.color) l.name))]
  else []) ++
  (if 0 < pr.requested_reviewers.length then
    [chalkBold "Reviewers:" ++ " " ++
      chalkGreen (String.intercalate ", " (pr.requested_reviewers.map (fun r => "@" ++ r.login)))]
  else []) ++
  (match pr.body with
   | some body =>
     if body != "" then
       [chalkBold "Description:" ++ " " ++
         chalkGray (String.map (fun c => if c = '\n' then ' ' else c) (body.take 150)) ++
         (if 150 < body.length then "..." else "")]
     else []
   | none => []) ++
  [""]

/-- Formatter.formatDetailed: header line plus the flattened per-item
blocks, joined with newlines. -/
def formatDetailed (env : JsDate) (now : Int) (prs : List PullRequest) : String :=
  let header := chalkBoldCyan ("\n📋 Found " ++ toString prs.length ++ " pull request(s):\n")
  String.intercalate "\n" (header :: (prs.enum.map (detailedEntry env now)).flatten)

/-- JSON string literal with the standard escapes. -/
def jsonEscapeChar (c : Char) : String :=
  if c = '"' then "\\\""
  else if c = '\\' then "\\\\"
  else if c = '\n' then "\\n"
  else if c = '\x0d' then "\\r"
  else if c = '\t' then "\\t"
  else String.mk [c]

/-- A JSON string value. -/
def jsonStr (s : String) : String :=
  "\"" ++ String.join (s.toList.map jsonEscapeChar) ++ "\""

/-- A JSON string-or-null value, as stringify renders nullable fields. -/
def jsonStrOrNull : Option String → String
  | some s => jsonStr s
  | none => "null"

/-- Indentation. -/
def spaces (n : Nat) : String := String.mk (List.replicate n ' ')

/-- JSON.stringify(·, null, 2) rendering of an object from pre-rendered
field values; ind is the indentation of the closing brace. -/
def jsonObj (ind : Nat) (fs : List (String × String)) : String :=
  if fs.isEmpty then "\x7b\x7d"
  else
    "\x7b\n" ++
      String.intercalate ",\n"
        (fs.map (fun f => spaces (ind + 2) ++ jsonStr f.1 ++ ": " ++ f.2)) ++
      "\n" ++ spaces ind ++ "\x7d"

/-- JSON.stringify(·, null, 2) rendering of an array from pre-rendered
items; ind is the indentation of the closing bracket.  An empty array
renders as two bare brackets with no inner whitespace. -/
def jsonArr (ind : Nat) (items : List String) : String :=
  if items.isEmpty then "[]"
  else
    "[\n" ++ String.intercalate ",\n" (items.map (fun s => spaces (ind + 2) ++ s)) ++
      "\n" ++ spaces ind ++ "]"

/-- A user object, field for field. -/
def userToJson (ind : Nat) (u : GitHubUser) : String :=
  jsonObj ind [("login", jsonStr u.login), ("id", toString u.id),
    ("avatar_url", jsonStr u.avatar_url), ("html_url", jsonStr u.html_url)]

/-- A label object; stringify omits the absent (undefined) description. -/
def labelToJson (ind : Nat) (l : GitHubLabel) : String :=
  jsonObj ind ([("id", toString l.id), ("name", jsonStr l.name), ("color", jsonStr l.color)] ++
    (match l.description with
     | some d => [("description", jsonStr d)]
     | none => []))

/-- A pull-request object with every field, in mapToPullRequest order. -/
def prToJson (ind : Nat) (pr : PullRequest) : String :=
  jsonObj ind [("id", toString pr.id), ("number", toString pr.number),
    ("title", jsonStr pr.title), ("state", jsonStr pr.state),
    ("user", userToJson (ind + 2) pr.user),
    ("body", jsonStrOrNull pr.body),
    ("created_at", jsonStr pr.created_at), ("updated_at", jsonStr pr.updated_at),
    ("closed_at", jsonStrOrNull pr.closed_at), ("merged_at", jsonStrOrNull pr.merged_at),
    ("html_url", jsonStr pr.html_url),
    ("draft", if pr.draft then "true" else "false"),
    ("labels", jsonArr (ind + 2) (pr.labels.map (labelToJson (ind + 4)))),
    ("requested_reviewers", jsonArr (ind + 2) (pr.requested_reviewers.map (userToJson (ind + 4)))),
    ("comments", toString pr.comments), ("review_comments", toString pr.review_comments),
    ("commits", toString pr.commits), ("additions", toString pr.additions),
    ("deletions", toString pr.deletions), ("changed_files", toString pr.changed_files)]

/-- JSON.stringify(prs, null, 2): the full item list, indented by 2. -/
def jsonStringifyPRs (prs : List PullRequest) : String :=
  jsonArr 0 (prs.map (prToJson 2))

/-- Formatter.formatPullRequests: the empty list short-circuits to the
single no-results message BEFORE the format switch; otherwise the switch
selects json, detailed, or compact (the default). -/
def formatPullRequests (env : JsDate) (now : Int) (prs : List PullRequest)
    (format : DisplayFormat) : String :=
  if prs.length = 0 then chalkYellow "No pull requests found."
  else
    match format with
    | .json => jsonStringifyPRs prs
    | .detailed => formatDetailed env now prs
    | .compact => formatCompact env now prs

/-! ## Claim C9: the empty list short-circuits every format -/

/-- C9: for the empty item list the presenter returns the single
"No pull requests found." message (chalk-styled) for every format,
including json; in particular the json output for zero items is that
human-readable line and never the JSON serialization of the empty
array, which would be two bare brackets. -/
theorem presenter_empty_short_circuits_all_formats :
    (∀ (env : JsDate) (now : Int) (format : DisplayFormat),
      formatPullRequests env now [] format = chalkYellow "No pull requests found.") ∧
    jsonStringifyPRs [] = "[]" ∧
    (∀ (env : JsDate) (now : Int),
      formatPullRequests env now [] DisplayFormat.json ≠ jsonStringifyPRs []) := by
  refine ⟨fun env now format => rfl, rfl, fun env now h => ?_⟩
  have h2 : chalkYellow "No pull requests found." = "[]" := h
  exact absurd h2 (by decide)

/-- A concrete date environment. -/
def constDate : JsDate := ⟨fun _ => 0, fun _ => ""⟩

/-- Witness for C9 at concrete inputs: the json format on the empty list
yields the styled no-results line. -/
theorem presenter_empty_short_circuits_all_formats_witness :
    formatPullRequests constDate 0 [] DisplayFormat.json =
      chalkYellow "No pull requests found." :=
  presenter_empty_short_circuits_all_formats.1 constDate 0 DisplayFormat.json
